import Mathlib

set_option maxHeartbeats 1000000
set_option maxRecDepth 8192

/-
Verification development for the nacho local streaming server and torrent
metadata index.  The definitions below are a shallow embedding of
src-tauri/src/file_server.rs and src-tauri/src/torrent_db.rs: header values
and path fragments are lists of characters or strings, file bytes are lists
of naturals, u64 arithmetic is modelled on Nat with explicit wrapping where
the source can overflow, and fallible operations return Option or Except.
-/

/-- Splitting a character list on the dash character, keeping empty segments,
mirroring the str split call in parse_range (file_server.rs line 19). -/
def splitDash : List Char → List (List Char)
  | [] => [[]]
  | c :: rest =>
    if c = '-' then [] :: splitDash rest
    else
      match splitDash rest with
      | [] => [[c]]
      | h :: t => (c :: h) :: t

/-- Accumulated numeric value of a digit list, as built by the u64 parser. -/
def digitsToNat (ds : List Char) : Nat :=
  ds.foldl (fun acc c => 10 * acc + (c.toNat - 48)) 0

/-- Model of str parse to u64: an optional leading plus sign followed by one
or more ascii digits, with the value required to fit in 64 bits. -/
def parseU64 (s : List Char) : Option Nat :=
  let ds := match s with
    | '+' :: rest => rest
    | _ => s
  if ds.isEmpty then none
  else if ds.all Char.isDigit then
    if digitsToNat ds < 18446744073709551616 then some (digitsToNat ds) else none
  else none

/-- The default end offset, file_size - 1 computed on u64 values
(file_server.rs line 27): wrapping subtraction modulo 2 to the 64, with the
modulus written as the literal 18446744073709551616. -/
def defaultEnd (file_size : Nat) : Nat :=
  (file_size + 18446744073709551615) % 18446744073709551616

/-- Body of parse_range once the split produced exactly two parts
(file_server.rs lines 24 to 37): parse the start, default or parse the end,
then validate start at most end and end below the file size.  The question
mark operator of the source is Option.bind. -/
def rangeFromParts (p0 p1 : List Char) (file_size : Nat) : Option (Nat × Nat) :=
  (parseU64 p0).bind fun start =>
    (if p1.isEmpty then some (defaultEnd file_size) else parseU64 p1).bind fun e =>
      if start ≤ e ∧ e < file_size then some (start, e) else none

/-- Embedding of parse_range (file_server.rs lines 18 to 38): split on the
dash and require exactly two parts. -/
def parse_range (range_str : List Char) (file_size : Nat) : Option (Nat × Nat) :=
  match splitDash range_str with
  | [p0, p1] => rangeFromParts p0 p1 file_size
  | _ => none

/-- Spec side predicate for C1, written from the words of the specification:
the string has the shape start dash end or start dash, start and end parse
as non negative integers, the end defaults to size minus one in the open
ended form, start is at most end, and end is below the file size. -/
def rangeSpecAccepts (s : List Char) (N st e : Nat) : Prop :=
  ∃ p q : List Char, s = p ++ '-' :: q ∧ '-' ∉ p ∧ '-' ∉ q ∧
    parseU64 p = some st ∧
    ((q = [] ∧ e = N - 1) ∨ (q ≠ [] ∧ parseU64 q = some e)) ∧
    st ≤ e ∧ e < N

/-- Response headers touched by the file server, each an optional value. -/
structure HeadersMap where
  contentType : Option String
  acceptRanges : Option String
  cacheControl : Option String
  vary : Option String
  allowOrigin : Option String
  allowMethods : Option String
  allowHeaders : Option String
  exposeHeaders : Option String
  contentLength : Option String
  contentRange : Option String
  deriving DecidableEq

def emptyHeaders : HeadersMap :=
  ⟨none, none, none, none, none, none, none, none, none, none⟩

/-- Embedding of add_common_headers (file_server.rs lines 65 to 98). -/
def add_common_headers (m : HeadersMap) (content_type : String) : HeadersMap :=
  { m with
    contentType := some content_type,
    acceptRanges := some "bytes",
    cacheControl := some "public, max-age=3600",
    vary := some "origin, access-control-request-method, access-control-request-headers",
    allowOrigin := some "*",
    allowMethods := some "GET, HEAD, OPTIONS",
    allowHeaders := some "range, content-type",
    exposeHeaders := some "content-length, content-range, accept-ranges" }

/-- The file the registry currently points at: its extension as reported by
PathBuf, the size reported by metadata, and the bytes on disk. -/
structure FileModel where
  ext : Option String
  size : Nat
  content : List Nat
  deriving DecidableEq

/-- Environment of one serve_video call: the registry slot and the outcomes
of the fallible filesystem steps (open, metadata, seek, buffered read),
together with the raw Range header value when one is present. -/
structure ServerEnv where
  currentFile : Option FileModel
  openOk : Bool
  metadataOk : Bool
  seekOk : Bool
  readOk : Bool
  rangeHeader : Option (List Char)
  deriving DecidableEq

/-- A successfully built response: status, headers, the bytes the body will
carry, and whether the body is streamed from the file handle rather than
materialized in a buffer before the response is constructed. -/
structure VideoResponse where
  status : Nat
  headers : HeadersMap
  body : List Nat
  streamed : Bool
  deriving DecidableEq

/-- Model of strip_prefix of the unit tag on the Range header value. -/
def stripBytesUnit (s : List Char) : Option (List Char) :=
  if s.take 6 = "bytes=".toList then some (s.drop 6) else none

/-- The range pipeline of serve_video (file_server.rs lines 171 to 184):
take the header value, strip the unit tag, then run parse_range. -/
def resolveRange (rangeHeader : Option (List Char)) (file_size : Nat) :
    Option (Nat × Nat) :=
  (rangeHeader.bind stripBytesUnit).bind (fun r => parse_range r file_size)

/-- Content type selection (file_server.rs lines 164 to 168). -/
def contentTypeFor (ext : Option String) : String :=
  if ext = some "mp4" then "video/mp4" else "application/octet-stream"

/-- The fixed 10 MiB transfer strategy threshold (file_server.rs line 213). -/
def STREAMING_THRESHOLD : Nat := 10 * 1024 * 1024

/-- Headers of a 206 partial content response. -/
def partHeaders (content_type : String) (content_length : Nat)
    (content_range : String) : HeadersMap :=
  { add_common_headers emptyHeaders content_type with
    contentLength := some (toString content_length),
    contentRange := some content_range }

/-- Headers of a 200 full body response. -/
def fullHeaders (content_type : String) (file_size : Nat) : HeadersMap :=
  { add_common_headers emptyHeaders content_type with
    contentLength := some (toString file_size) }

/-- Embedding of serve_video (file_server.rs lines 126 to 296).  Statuses are
carried in the error side of Except exactly where the source returns an Err
status code.  On the range path the file handle is seeked first; a span above
the threshold is streamed (the response is built without reading), a span at
or below it is read fully into a buffer, which fails if the read fails or the
file holds too few bytes. -/
def serve_video (env : ServerEnv) : Except Nat VideoResponse :=
  match env.currentFile with
  | none => Except.error 404
  | some file =>
    if env.openOk = false then Except.error 404
    else if env.metadataOk = false then Except.error 500
    else
      let file_size := file.size
      let content_type := contentTypeFor file.ext
      match resolveRange env.rangeHeader file_size with
      | some (start, e) =>
        if env.seekOk = false then Except.error 500
        else
          let content_length := e - start + 1
          let content_range :=
            "bytes " ++ toString start ++ "-" ++ toString e ++ "/" ++ toString file_size
          if STREAMING_THRESHOLD < content_length then
            Except.ok ⟨206, partHeaders content_type content_length content_range,
              (file.content.drop start).take content_length, true⟩
          else if env.readOk = false ∨ file.content.length < start + content_length then
            Except.error 500
          else
            Except.ok ⟨206, partHeaders content_type content_length content_range,
              (file.content.drop start).take content_length, false⟩
      | none =>
        Except.ok ⟨200, fullHeaders content_type file_size, file.content, true⟩

/-- Entry of the torrent metadata index (torrent_db.rs lines 16 to 34). -/
structure TorrentEntry where
  torrent_id : Int
  info_hash : String
  tmdb_id : Option Nat
  media_type : Option String
  created_at : Int
  updated_at : Int
  episode_info : Option (Int × Int)
  imdb_code : Option String
  deriving DecidableEq

/-- First entry stored under the given hash, modelling the HashMap lookup. -/
def lookupEntry (entries : List (String × TorrentEntry)) (hash : String) :
    Option TorrentEntry :=
  match entries with
  | [] => none
  | p :: rest => if p.1 = hash then some p.2 else lookupEntry rest hash

/-- In place update of an existing entry (torrent_db.rs lines 114 to 129):
the numeric id and the update timestamp are always overwritten, the three
metadata fields only when the argument is present. -/
def mergeEntry (old : TorrentEntry) (torrent_id : Int) (tmdb_id : Option Nat)
    (media_type : Option String) (episode_info : Option (Int × Int))
    (now : Int) : TorrentEntry :=
  { old with
    torrent_id := torrent_id,
    tmdb_id := if tmdb_id.isSome then tmdb_id else old.tmdb_id,
    media_type := if media_type.isSome then media_type else old.media_type,
    episode_info := if episode_info.isSome then episode_info else old.episode_info,
    updated_at := now }

/-- The in-memory mutation of upsert_torrent: merge into the existing entry
when the hash is present, otherwise insert a fresh entry with the current
timestamp as both created and updated time (torrent_db.rs lines 112 to 144). -/
def upsertEntries (entries : List (String × TorrentEntry)) (torrent_id : Int)
    (info_hash : String) (tmdb_id : Option Nat) (media_type : Option String)
    (episode_info : Option (Int × Int)) (now : Int) :
    List (String × TorrentEntry) :=
  match lookupEntry entries info_hash with
  | some _ =>
    entries.map (fun p =>
      if p.1 = info_hash then
        (p.1, mergeEntry p.2 torrent_id tmdb_id media_type episode_info now)
      else p)
  | none =>
    (info_hash,
      { torrent_id := torrent_id, info_hash := info_hash, tmdb_id := tmdb_id,
        media_type := media_type, created_at := now, updated_at := now,
        episode_info := episode_info, imdb_code := none }) :: entries

/-- State of the TorrentDb: the in-memory entries, the entries held by the
durable file, and a counter of persistence attempts. -/
structure TorrentDb where
  entries : List (String × TorrentEntry)
  disk : List (String × TorrentEntry)
  saves : Nat
  deriving DecidableEq

/-- Embedding of save_to_file (torrent_db.rs lines 76 to 99): on success the
whole in-memory document replaces the durable one atomically; on failure the
durable file is untouched and an error is propagated. -/
def save_to_file (db : TorrentDb) (saveOk : Bool) : TorrentDb × Except String Unit :=
  if saveOk then
    ({ db with disk := db.entries, saves := db.saves + 1 }, Except.ok ())
  else
    ({ db with saves := db.saves + 1 }, Except.error "Failed to serialize database")

/-- Embedding of upsert_torrent (torrent_db.rs lines 102 to 149): the
in-memory mutation is applied first, then the durable write is attempted. -/
def upsert_torrent (db : TorrentDb) (torrent_id : Int) (info_hash : String)
    (tmdb_id : Option Nat) (media_type : Option String)
    (episode_info : Option (Int × Int)) (now : Int) (saveOk : Bool) :
    TorrentDb × Except String Unit :=
  save_to_file
    { db with
      entries := upsertEntries db.entries torrent_id info_hash tmdb_id
        media_type episode_info now }
    saveOk

/-- Embedding of sync_with_torrent_list (torrent_db.rs lines 217 to 238):
retain exactly the entries whose hash is in the active list and persist only
when the retained count dropped. -/
def sync_with_torrent_list (db : TorrentDb) (active : List String)
    (saveOk : Bool) : TorrentDb × Except String Unit :=
  let kept := db.entries.filter (fun p => active.contains p.1)
  if 0 < db.entries.length - kept.length then
    save_to_file { db with entries := kept } saveOk
  else
    ({ db with entries := kept }, Except.ok ())

/-- Listener bookkeeping: the global SERVER_HANDLE slot, recording the port
the spawned task listens on, plus a count of listener tasks ever spawned. -/
structure ServerHandle where
  handle : Option Nat
  spawned : Nat
  deriving DecidableEq

/-- Embedding of init_file_server (file_server.rs lines 306 to 345): when a
handle is already stored the call returns at once with a URL built from the
port argument of this call; otherwise it spawns one listener task on the
requested port, stores the handle and returns the URL. -/
def init_file_server (st : ServerHandle) (port : Nat) : ServerHandle × String :=
  if st.handle.isSome then
    (st, "http://127.0.0.1:" ++ toString port)
  else
    ({ handle := some port, spawned := st.spawned + 1 },
      "http://127.0.0.1:" ++ toString port)

/-- A thousand byte mp4 file used by concrete scenarios. -/
def fileThousand : FileModel :=
  ⟨some "mp4", 1000, List.replicate 1000 0⟩

/-- A fifty million byte mp4 file used by the streaming scenario. -/
def fileFifty : FileModel :=
  ⟨some "mp4", 50000000, List.replicate 50000000 0⟩

/-- Entry under hash a of the concrete sync scenario. -/
def entryA : TorrentEntry :=
  ⟨1, "a", some 7, some "movie", 10, 10, none, none⟩

/-- Entry under hash b of the concrete sync scenario. -/
def entryB : TorrentEntry :=
  ⟨2, "b", none, some "tv", 11, 11, some (1, 2), none⟩

/-- Two entry database used by the concrete sync scenario. -/
def dbTwo : TorrentDb :=
  ⟨[("a", entryA), ("b", entryB)], [("a", entryA), ("b", entryB)], 0⟩

/-- The split never produces an empty list of parts. -/
theorem splitDash_ne_nil (xs : List Char) : splitDash xs ≠ [] := by
  cases xs with
  | nil => simp [splitDash]
  | cons c rest =>
    by_cases hc : c = '-'
    · simp [splitDash, hc]
    · simp only [splitDash, if_neg hc]
      cases splitDash rest <;> simp

/-- Splitting a list that starts with the dash puts an empty first part. -/
theorem splitDash_cons_dash (rest : List Char) :
    splitDash ('-' :: rest) = [] :: splitDash rest := by
  simp [splitDash]

/-- Splitting a list that starts with another character prepends it to the
first part of the split of the tail. -/
theorem splitDash_cons_ne (c : Char) (rest h : List Char) (t : List (List Char))
    (hc : ¬ c = '-') (hsd : splitDash rest = h :: t) :
    splitDash (c :: rest) = (c :: h) :: t := by
  simp [splitDash, hc, hsd]

/-- The split yields a single part exactly on dash free input. -/
theorem splitDash_eq_single (xs : List Char) : ∀ q : List Char,
    splitDash xs = [q] ↔ xs = q ∧ '-' ∉ q := by
  induction xs with
  | nil =>
    intro q
    simp only [splitDash, List.cons.injEq, and_true]
    rw [iff_self_and]
    rintro rfl
    simp
  | cons c rest ih =>
    intro q
    by_cases hc : c = '-'
    · subst hc
      rw [splitDash_cons_dash]
      constructor
      · intro h
        simp only [List.cons.injEq] at h
        exact absurd h.2 (splitDash_ne_nil rest)
      · rintro ⟨rfl, hq⟩
        simp at hq
    · rcases hsd : splitDash rest with _ | ⟨h, t⟩
      · exact absurd hsd (splitDash_ne_nil rest)
      · rw [splitDash_cons_ne c rest h t hc hsd]
        constructor
        · intro heq
          simp only [List.cons.injEq] at heq
          obtain ⟨h1, h2⟩ := heq
          subst h2
          obtain ⟨h3, hm⟩ := (ih h).mp hsd
          subst h3
          refine ⟨h1, ?_⟩
          rw [← h1]
          intro hmem
          rcases List.mem_cons.mp hmem with h4 | h4
          · exact hc h4.symm
          · exact hm h4
        · rintro ⟨rfl, hq⟩
          have hm : '-' ∉ rest := fun hh => hq (List.mem_cons_of_mem _ hh)
          have h5 : splitDash rest = [rest] := (ih rest).mpr ⟨rfl, hm⟩
          rw [hsd] at h5
          simp only [List.cons.injEq] at h5
          obtain ⟨rfl, rfl⟩ := h5
          rfl

/-- The split yields exactly two parts precisely when the input is a dash
free part, one dash, then another dash free part. -/
theorem splitDash_eq_pair (xs : List Char) : ∀ p q : List Char,
    splitDash xs = [p, q] ↔ xs = p ++ '-' :: q ∧ '-' ∉ p ∧ '-' ∉ q := by
  induction xs with
  | nil =>
    intro p q
    constructor
    · intro h
      simp [splitDash] at h
    · rintro ⟨heq, hp, hq⟩
      simp at heq
  | cons c rest ih =>
    intro p q
    by_cases hc : c = '-'
    · subst hc
      rw [splitDash_cons_dash]
      constructor
      · intro hcons
        simp only [List.cons.injEq] at hcons
        obtain ⟨rfl, h2⟩ := hcons
        obtain ⟨rfl, hq⟩ := (splitDash_eq_single rest q).mp h2
        exact ⟨rfl, by simp, hq⟩
      · rintro ⟨heq, hp, hq⟩
        cases p with
        | nil =>
          simp only [List.nil_append] at heq
          have heq2 : rest = q := by simpa using heq
          have h6 : splitDash rest = [q] :=
            (splitDash_eq_single rest q).mpr ⟨heq2, hq⟩
          rw [h6]
        | cons c' p' =>
          simp only [List.cons_append, List.cons.injEq] at heq
          exact absurd (by rw [heq.1]; exact List.mem_cons_self _ _) hp
    · rcases hsd : splitDash rest with _ | ⟨h, t⟩
      · exact absurd hsd (splitDash_ne_nil rest)
      · rw [splitDash_cons_ne c rest h t hc hsd]
        constructor
        · intro hcons
          simp only [List.cons.injEq] at hcons
          obtain ⟨rfl, rfl⟩ := hcons
          obtain ⟨h7, hmh, hmq⟩ := (ih h q).mp hsd
          refine ⟨?_, ?_, hmq⟩
          · rw [h7]
            rfl
          · intro hmem
            rcases List.mem_cons.mp hmem with h8 | h8
            · exact hc h8.symm
            · exact hmh h8
        · rintro ⟨heq, hp, hq⟩
          cases p with
          | nil =>
            simp only [List.nil_append, List.cons.injEq] at heq
            exact absurd heq.1 hc
          | cons c' p' =>
            simp only [List.cons_append, List.cons.injEq] at heq
            obtain ⟨rfl, h9⟩ := heq
            have hp' : '-' ∉ p' := fun hh => hp (List.mem_cons_of_mem _ hh)
            have h10 : splitDash rest = [p', q] := (ih p' q).mpr ⟨h9, hp', hq⟩
            rw [hsd] at h10
            simp only [List.cons.injEq] at h10
            obtain ⟨rfl, rfl⟩ := h10
            rfl

/-- For a positive size below 2 to the 64 the wrapped default end is the
ordinary size minus one. -/
theorem defaultEnd_eq_sub_one (N : Nat) (h1 : 1 ≤ N)
    (h2 : N < 18446744073709551616) : defaultEnd N = N - 1 := by
  unfold defaultEnd
  omega

/-- Characterization of the two part body of parse_range, for sizes a real
u64 can take and at least one. -/
theorem rangeFromParts_eq_some (p0 p1 : List Char) (N st e : Nat) (h1 : 1 ≤ N)
    (hN : N < 18446744073709551616) :
    rangeFromParts p0 p1 N = some (st, e) ↔
      parseU64 p0 = some st ∧
      ((p1 = [] ∧ e = N - 1) ∨ (p1 ≠ [] ∧ parseU64 p1 = some e)) ∧
      st ≤ e ∧ e < N := by
  have hde : defaultEnd N = N - 1 := defaultEnd_eq_sub_one N h1 hN
  unfold rangeFromParts
  rw [hde]
  rcases hp0 : parseU64 p0 with _ | st0
  · simp
  · simp only [Option.some_bind, Option.some.injEq]
    rcases hp1 : p1 with _ | ⟨c1, r1⟩
    · have hred : (if ([] : List Char).isEmpty = true then some (N - 1)
          else parseU64 []) = some (N - 1) := rfl
      rw [hred, Option.some_bind]
      constructor
      · intro hsome
        by_cases hcond : st0 ≤ N - 1 ∧ N - 1 < N
        · rw [if_pos hcond] at hsome
          simp only [Option.some.injEq, Prod.mk.injEq] at hsome
          obtain ⟨rfl, rfl⟩ := hsome
          exact ⟨rfl, Or.inl ⟨rfl, rfl⟩, hcond.1, hcond.2⟩
        · rw [if_neg hcond] at hsome
          exact Option.noConfusion hsome
      · rintro ⟨rfl, hdisj, hle, hlt⟩
        rcases hdisj with ⟨-, rfl⟩ | ⟨hne, -⟩
        · rw [if_pos ⟨hle, hlt⟩]
        · exact absurd rfl hne
    · have hred : (if (c1 :: r1).isEmpty = true then some (N - 1)
          else parseU64 (c1 :: r1)) = parseU64 (c1 :: r1) := rfl
      rw [hred]
      rcases hpe : parseU64 (c1 :: r1) with _ | e0
      · constructor
        · intro hsome
          exact Option.noConfusion hsome
        · rintro ⟨-, hdisj, -, -⟩
          rcases hdisj with ⟨hnil, -⟩ | ⟨-, hsome⟩
          · exact List.noConfusion hnil
          · exact Option.noConfusion hsome
      · rw [Option.some_bind]
        constructor
        · intro hsome
          by_cases hcond : st0 ≤ e0 ∧ e0 < N
          · rw [if_pos hcond] at hsome
            simp only [Option.some.injEq, Prod.mk.injEq] at hsome
            obtain ⟨rfl, rfl⟩ := hsome
            exact ⟨rfl, Or.inr ⟨List.cons_ne_nil c1 r1, rfl⟩, hcond.1, hcond.2⟩
          · rw [if_neg hcond] at hsome
            exact Option.noConfusion hsome
        · rintro ⟨rfl, hdisj, hle, hlt⟩
          rcases hdisj with ⟨hnil, -⟩ | ⟨-, hsome⟩
          · exact List.noConfusion hnil
          · obtain rfl := Option.some.inj hsome
            rw [if_pos ⟨hle, hlt⟩]

/-- At file size zero the validation end below size can never hold, so the
resolver returns None for every input string. -/
theorem parse_range_zero_aux (s : List Char) : parse_range s 0 = none := by
  have hforall : ∀ p0 p1 : List Char, rangeFromParts p0 p1 0 = none := by
    intro p0 p1
    unfold rangeFromParts
    rcases parseU64 p0 with _ | st0
    · rfl
    · simp only [Option.some_bind]
      rcases (if p1.isEmpty = true then some (defaultEnd 0) else parseU64 p1) with _ | e0
      · rfl
      · simp only [Option.some_bind]
        have hno : ¬ (st0 ≤ e0 ∧ e0 < 0) := by
          rintro ⟨-, hlt⟩
          exact Nat.not_lt_zero e0 hlt
        rw [if_neg hno]
  unfold parse_range
  rcases splitDash s with _ | ⟨p0, _ | ⟨p1, _ | ⟨c2, r2⟩⟩⟩
  · rfl
  · rfl
  · exact hforall p0 p1
  · rfl

/-- C1: the resolver returns some start and end exactly when the string is a
dash separated pair or an open ended start dash, the numeric tokens parse as
non negative integers, the end defaults to size minus one in the open ended
form, start is at most end, and end is below the file size; every other
input yields None.  The size bound is the u64 range of the source. -/
theorem parse_range_characterization (s : List Char) (N st e : Nat)
    (hN : N < 18446744073709551616) :
    parse_range s N = some (st, e) ↔ rangeSpecAccepts s N st e := by
  rcases Nat.eq_zero_or_pos N with rfl | h1
  · rw [parse_range_zero_aux]
    constructor
    · intro h
      exact Option.noConfusion h
    · rintro ⟨p, q, -, -, -, -, -, -, hlt⟩
      exact absurd hlt (Nat.not_lt_zero e)
  · constructor
    · intro h
      unfold parse_range at h
      rcases hs : splitDash s with _ | ⟨p0, _ | ⟨p1, _ | ⟨c2, r2⟩⟩⟩ <;> rw [hs] at h
      · exact Option.noConfusion h
      · exact Option.noConfusion h
      · have h2 : rangeFromParts p0 p1 N = some (st, e) := h
        rw [rangeFromParts_eq_some p0 p1 N st e h1 hN] at h2
        obtain ⟨hparse, hdisj, hle, hlt⟩ := h2
        obtain ⟨hcat, hp, hq⟩ := (splitDash_eq_pair s p0 p1).mp hs
        exact ⟨p0, p1, hcat, hp, hq, hparse, hdisj, hle, hlt⟩
      · exact Option.noConfusion h
    · rintro ⟨p, q, rfl, hp, hq, hparse, hdisj, hle, hlt⟩
      have hsplit : splitDash (p ++ '-' :: q) = [p, q] :=
        (splitDash_eq_pair (p ++ '-' :: q) p q).mpr ⟨rfl, hp, hq⟩
      unfold parse_range
      rw [hsplit]
      show rangeFromParts p q N = some (st, e)
      rw [rangeFromParts_eq_some p q N st e h1 hN]
      exact ⟨hparse, hdisj, hle, hlt⟩

/-- Witness for C1: the probe range zero dash one against a thousand byte
file is accepted on both sides of the characterization. -/
theorem parse_range_characterization_witness :
    parse_range ("0-1".toList) 1000 = some (0, 1) ∧
      rangeSpecAccepts ("0-1".toList) 1000 0 1 := by
  have h := (parse_range_characterization ("0-1".toList) 1000 0 1
    (by norm_num)).mp (by decide)
  exact ⟨by decide, h⟩

/-- C9 counterexample: at file size zero the default end computation does
underflow: on u64 values it wraps to 2 to the 64 minus 1, which is not the
integer value of zero minus one. -/
theorem defaultEnd_zero_underflows :
    defaultEnd 0 = 2 ^ 64 - 1 ∧ ((defaultEnd 0 : Int) ≠ (0 : Int) - 1) := by
  constructor
  · norm_num [defaultEnd]
  · norm_num [defaultEnd]

/-- C9 amended: the resolver is a total function and, under the wrapping
release semantics of the subtraction, every string resolved against file
size zero yields None because the wrapped default end fails the bound
check. -/
theorem parse_range_size_zero_returns_none (s : List Char) :
    parse_range s 0 = none :=
  parse_range_zero_aux s

/-- A resolved pair from the two part body is validated: start is at most
end and end is below the size. -/
theorem rangeFromParts_sound {p0 p1 : List Char} {N st e : Nat}
    (h : rangeFromParts p0 p1 N = some (st, e)) : st ≤ e ∧ e < N := by
  unfold rangeFromParts at h
  rcases hp0 : parseU64 p0 with _ | st0 <;> rw [hp0] at h
  · exact Option.noConfusion h
  · simp only [Option.some_bind] at h
    rcases he : (if p1.isEmpty = true then some (defaultEnd N) else parseU64 p1)
      with _ | e0 <;> rw [he] at h
    · exact Option.noConfusion h
    · simp only [Option.some_bind] at h
      by_cases hcond : st0 ≤ e0 ∧ e0 < N
      · rw [if_pos hcond] at h
        simp only [Option.some.injEq, Prod.mk.injEq] at h
        obtain ⟨rfl, rfl⟩ := h
        exact hcond
      · rw [if_neg hcond] at h
        exact Option.noConfusion h

/-- A resolved range is validated against the file size. -/
theorem parse_range_sound {r : List Char} {N st e : Nat}
    (h : parse_range r N = some (st, e)) : st ≤ e ∧ e < N := by
  unfold parse_range at h
  rcases hs : splitDash r with _ | ⟨p0, _ | ⟨p1, _ | ⟨c2, r2⟩⟩⟩ <;> rw [hs] at h
  · exact Option.noConfusion h
  · exact Option.noConfusion h
  · exact rangeFromParts_sound h
  · exact Option.noConfusion h

/-- A range resolved by the header pipeline is validated against the size. -/
theorem resolveRange_sound {rh : Option (List Char)} {N st e : Nat}
    (h : resolveRange rh N = some (st, e)) : st ≤ e ∧ e < N := by
  unfold resolveRange at h
  rcases rh with _ | v
  · exact Option.noConfusion h
  · simp only [Option.some_bind] at h
    rcases hsv : stripBytesUnit v with _ | r <;> rw [hsv] at h
    · exact Option.noConfusion h
    · simp only [Option.some_bind] at h
      exact parse_range_sound h

/-- Evaluation of serve_video on a healthy environment when the range
pipeline resolves: status 206, partial content headers, the span sliced out
of the file, and a strategy picked by comparing the span to the threshold. -/
theorem serve_video_range_eval (file : FileModel) (rh : Option (List Char))
    (start e : Nat) (hr : resolveRange rh file.size = some (start, e))
    (havail : start + (e - start + 1) ≤ file.content.length) :
    serve_video ⟨some file, true, true, true, true, rh⟩ =
      Except.ok ⟨206,
        partHeaders (contentTypeFor file.ext) (e - start + 1)
          ("bytes " ++ toString start ++ "-" ++ toString e ++ "/" ++
            toString file.size),
        (file.content.drop start).take (e - start + 1),
        decide (STREAMING_THRESHOLD < e - start + 1)⟩ := by
  have hb : ¬ (true : Bool) = false := by decide
  unfold serve_video
  dsimp only
  simp only [if_neg hb]
  rw [hr]
  dsimp only
  by_cases hthr : STREAMING_THRESHOLD < e - start + 1
  · rw [if_pos hthr, decide_eq_true hthr]
  · rw [if_neg hthr, decide_eq_false hthr]
    have hread : ¬ (((true : Bool) = false) ∨
        file.content.length < start + (e - start + 1)) := by
      rintro (hcontra | hlen2)
      · exact Bool.noConfusion hcontra
      · omega
    rw [if_neg hread]

/-- Evaluation of serve_video on a healthy environment when the range
pipeline yields nothing: status 200 and the whole file streamed. -/
theorem serve_video_full_eval (file : FileModel) (rh : Option (List Char))
    (hr : resolveRange rh file.size = none) :
    serve_video ⟨some file, true, true, true, true, rh⟩ =
      Except.ok ⟨200, fullHeaders (contentTypeFor file.ext) file.size,
        file.content, true⟩ := by
  have hb : ¬ (true : Bool) = false := by decide
  unfold serve_video
  dsimp only
  simp only [if_neg hb]
  rw [hr]

/-- C2: a GET whose Range header resolves to a valid interval over a
readable file answers 206 with the Content-Range header bytes start dash
end slash size, Content-Length end minus start plus one, and a body holding
exactly the bytes at offsets start through end of the file. -/
theorem serve_valid_range_partial_content (file : FileModel)
    (rh : Option (List Char)) (start e : Nat)
    (hlen : file.content.length = file.size)
    (hr : resolveRange rh file.size = some (start, e)) :
    ∃ resp : VideoResponse,
      serve_video ⟨some file, true, true, true, true, rh⟩ = Except.ok resp ∧
      resp.status = 206 ∧
      resp.headers.contentRange =
        some ("bytes " ++ toString start ++ "-" ++ toString e ++ "/" ++
          toString file.size) ∧
      resp.headers.contentLength = some (toString (e - start + 1)) ∧
      resp.body.length = e - start + 1 ∧
      ∀ i : Nat, i < e - start + 1 → resp.body[i]? = file.content[start + i]? := by
  obtain ⟨hle, hlt⟩ := resolveRange_sound hr
  have havail : start + (e - start + 1) ≤ file.content.length := by omega
  refine ⟨_, serve_video_range_eval file rh start e hr havail, rfl, rfl, rfl,
    ?_, ?_⟩
  · rw [List.length_take, List.length_drop]
    omega
  · intro i hi
    rw [List.getElem?_take, if_pos hi, List.getElem?_drop]

/-- Witness for C2: the two byte probe range zero to one on a thousand byte
file is served as 206 partial content with a two byte body. -/
theorem serve_valid_range_partial_content_witness :
    ∃ resp : VideoResponse,
      serve_video ⟨some fileThousand, true, true, true, true,
        some ("bytes=0-1".toList)⟩ = Except.ok resp ∧
      resp.status = 206 ∧
      resp.headers.contentRange = some "bytes 0-1/1000" ∧
      resp.body.length = 2 := by
  obtain ⟨resp, hok, hst, hcr, hclen, hblen, hpt⟩ :=
    serve_valid_range_partial_content fileThousand (some ("bytes=0-1".toList))
      0 1 (by
        show (List.replicate 1000 (0 : Nat)).length = 1000
        rw [List.length_replicate]) (by decide)
  refine ⟨resp, hok, hst, ?_, ?_⟩
  · rw [hcr]
    rfl
  · rw [hblen]

/-- C3: the transfer strategy is chosen by comparing the span length to the
fixed 10 MiB threshold: strictly larger spans are streamed, spans at or
below the threshold are buffered, and in both cases the body is the span of
length end minus start plus one. -/
theorem serve_threshold_strategy (file : FileModel) (rh : Option (List Char))
    (start e : Nat) (hlen : file.content.length = file.size)
    (hr : resolveRange rh file.size = some (start, e)) :
    ∃ resp : VideoResponse,
      serve_video ⟨some file, true, true, true, true, rh⟩ = Except.ok resp ∧
      resp.status = 206 ∧
      (resp.streamed = true ↔ STREAMING_THRESHOLD < e - start + 1) ∧
      resp.body = (file.content.drop start).take (e - start + 1) ∧
      resp.body.length = e - start + 1 := by
  obtain ⟨hle, hlt⟩ := resolveRange_sound hr
  have havail : start + (e - start + 1) ≤ file.content.length := by omega
  refine ⟨_, serve_video_range_eval file rh start e hr havail, rfl, ?_, rfl,
    ?_⟩
  · constructor
    · intro h
      exact of_decide_eq_true h
    · intro h
      exact decide_eq_true h
  · rw [List.length_take, List.length_drop]
    omega

/-- Witness for C3: a twelve million byte span on a fifty million byte file
lies above the threshold and is streamed with a body of exactly twelve
million bytes. -/
theorem serve_threshold_strategy_witness :
    ∃ resp : VideoResponse,
      serve_video ⟨some fileFifty, true, true, true, true,
        some ("bytes=0-11999999".toList)⟩ = Except.ok resp ∧
      resp.status = 206 ∧ resp.streamed = true ∧
      resp.body.length = 12000000 := by
  obtain ⟨resp, hok, hst, hiff, hbody, hblen⟩ :=
    serve_threshold_strategy fileFifty (some ("bytes=0-11999999".toList))
      0 11999999 (by
        show (List.replicate 50000000 (0 : Nat)).length = 50000000
        rw [List.length_replicate]) (by decide)
  refine ⟨resp, hok, hst, ?_, ?_⟩
  · exact hiff.mpr (by norm_num [STREAMING_THRESHOLD])
  · rw [hblen]

/-- C4: a GET with no Range header or one the resolver rejects answers 200
with the whole file streamed as the body and Accept-Ranges bytes
advertised, never an error status. -/
theorem serve_no_or_invalid_range_full (file : FileModel)
    (rh : Option (List Char)) (hlen : file.content.length = file.size)
    (hr : resolveRange rh file.size = none) :
    ∃ resp : VideoResponse,
      serve_video ⟨some file, true, true, true, true, rh⟩ = Except.ok resp ∧
      resp.status = 200 ∧ resp.body = file.content ∧
      resp.body.length = file.size ∧
      resp.headers.acceptRanges = some "bytes" ∧
      resp.headers.contentLength = some (toString file.size) ∧
      resp.streamed = true := by
  refine ⟨_, serve_video_full_eval file rh hr, rfl, rfl, hlen, rfl, rfl, rfl⟩

/-- Witness for C4: the inverted range five hundred to one hundred on a
thousand byte file is treated as absent and the whole kilobyte is served
with status 200. -/
theorem serve_no_or_invalid_range_full_witness :
    ∃ resp : VideoResponse,
      serve_video ⟨some fileThousand, true, true, true, true,
        some ("bytes=500-100".toList)⟩ = Except.ok resp ∧
      resp.status = 200 ∧ resp.body.length = 1000 ∧
      resp.headers.acceptRanges = some "bytes" := by
  obtain ⟨resp, hok, hst, hbody, hblen, har, hclen, hstr⟩ :=
    serve_no_or_invalid_range_full fileThousand
      (some ("bytes=500-100".toList)) (by
        show (List.replicate 1000 (0 : Nat)).length = 1000
        rw [List.length_replicate]) (by decide)
  exact ⟨resp, hok, hst, hblen, har⟩

/-- C7: the responder error taxonomy: 404 with no registered file, 404 when
the open fails, 500 when the metadata read fails after a successful open,
500 when the seek fails after a valid range resolved, and 500 when the
buffered read of a small span fails. -/
theorem serve_error_taxonomy (file : FileModel) (rh : Option (List Char))
    (oOk mOk sOk rOk : Bool) :
    serve_video ⟨none, oOk, mOk, sOk, rOk, rh⟩ = Except.error 404 ∧
    serve_video ⟨some file, false, mOk, sOk, rOk, rh⟩ = Except.error 404 ∧
    serve_video ⟨some file, true, false, sOk, rOk, rh⟩ = Except.error 500 ∧
    (∀ start e : Nat, resolveRange rh file.size = some (start, e) →
      serve_video ⟨some file, true, true, false, rOk, rh⟩ =
        Except.error 500) ∧
    (∀ start e : Nat, resolveRange rh file.size = some (start, e) →
      e - start + 1 ≤ STREAMING_THRESHOLD →
      serve_video ⟨some file, true, true, true, false, rh⟩ =
        Except.error 500) := by
  have hb : ¬ (true : Bool) = false := by decide
  refine ⟨rfl, rfl, rfl, ?_, ?_⟩
  · intro start e hr
    unfold serve_video
    dsimp only
    simp only [if_neg hb]
    rw [hr]
    rfl
  · intro start e hr hsmall
    unfold serve_video
    dsimp only
    simp only [if_neg hb]
    rw [hr]
    dsimp only
    rw [if_neg (Nat.not_lt.mpr hsmall)]
    rw [if_pos (Or.inl trivial)]

/-- Witness for C7: all five failure shapes on concrete environments. -/
theorem serve_error_taxonomy_witness :
    serve_video ⟨none, true, true, true, true, some ("bytes=0-1".toList)⟩ =
      Except.error 404 ∧
    serve_video ⟨some fileThousand, false, true, true, true,
      some ("bytes=0-1".toList)⟩ = Except.error 404 ∧
    serve_video ⟨some fileThousand, true, false, true, true,
      some ("bytes=0-1".toList)⟩ = Except.error 500 ∧
    serve_video ⟨some fileThousand, true, true, false, true,
      some ("bytes=0-1".toList)⟩ = Except.error 500 ∧
    serve_video ⟨some fileThousand, true, true, true, false,
      some ("bytes=0-1".toList)⟩ = Except.error 500 := by
  obtain ⟨h1, h2, h3, h4, h5⟩ :=
    serve_error_taxonomy fileThousand (some ("bytes=0-1".toList))
      true true true true
  exact ⟨h1, h2, h3, h4 0 1 (by decide), h5 0 1 (by decide) (by decide)⟩

/-- Unfolding equation of the lookup on a cons cell. -/
theorem lookupEntry_cons (p : String × TorrentEntry)
    (l : List (String × TorrentEntry)) (hash : String) :
    lookupEntry (p :: l) hash =
      if p.1 = hash then some p.2 else lookupEntry l hash := rfl

/-- Updating in place every cell that carries the hash acts on the lookup as
Option.map. -/
theorem lookupEntry_map_update (entries : List (String × TorrentEntry))
    (hash : String) (f : TorrentEntry → TorrentEntry) :
    lookupEntry
        (entries.map fun p => if p.1 = hash then (p.1, f p.2) else p) hash =
      (lookupEntry entries hash).map f := by
  induction entries with
  | nil => rfl
  | cons p rest ih =>
    by_cases hh : p.1 = hash
    · simp only [List.map_cons, if_pos hh, lookupEntry_cons]
      rfl
    · simp only [List.map_cons, if_neg hh, lookupEntry_cons]
      exact ih

/-- The in place update leaves every other hash untouched. -/
theorem lookupEntry_map_update_ne (entries : List (String × TorrentEntry))
    (hash h2 : String) (f : TorrentEntry → TorrentEntry) (hne : ¬ hash = h2) :
    lookupEntry
        (entries.map fun p => if p.1 = hash then (p.1, f p.2) else p) h2 =
      lookupEntry entries h2 := by
  induction entries with
  | nil => rfl
  | cons p rest ih =>
    by_cases hh : p.1 = hash
    · simp only [List.map_cons, if_pos hh, lookupEntry_cons]
      have hph : ¬ p.1 = h2 := by
        rw [hh]
        exact hne
      rw [if_neg hph, if_neg hph]
      exact ih
    · simp only [List.map_cons, if_neg hh, lookupEntry_cons]
      by_cases hph : p.1 = h2
      · rw [if_pos hph, if_pos hph]
      · rw [if_neg hph, if_neg hph]
        exact ih

/-- Both outcomes of the durable write keep the in-memory entries. -/
theorem save_to_file_entries (db : TorrentDb) (saveOk : Bool) :
    (save_to_file db saveOk).1.entries = db.entries := by
  cases saveOk <;> rfl

/-- The durable write bumps the persistence attempt counter by one. -/
theorem save_to_file_saves (db : TorrentDb) (saveOk : Bool) :
    (save_to_file db saveOk).1.saves = db.saves + 1 := by
  cases saveOk <;> rfl

/-- The entries after an upsert are the merged entries, for both outcomes of
the durable write. -/
theorem upsert_torrent_entries (db : TorrentDb) (tid : Int) (hash : String)
    (tmdb : Option Nat) (mt : Option String) (ei : Option (Int × Int))
    (now : Int) (saveOk : Bool) :
    (upsert_torrent db tid hash tmdb mt ei now saveOk).1.entries =
      upsertEntries db.entries tid hash tmdb mt ei now := by
  unfold upsert_torrent
  rw [save_to_file_entries]

/-- C5: upsert merge semantics.  On an existing entry the numeric id is
always overwritten, each optional field only when the argument is present,
the update timestamp is refreshed and the creation timestamp kept; on a
missing hash a fresh entry is created with the current timestamp as both
created and updated time. -/
theorem upsert_merge_semantics (db : TorrentDb) (tid : Int) (hash : String)
    (tmdb : Option Nat) (mt : Option String) (ei : Option (Int × Int))
    (now : Int) (saveOk : Bool) :
    (∀ old : TorrentEntry, lookupEntry db.entries hash = some old →
      lookupEntry (upsert_torrent db tid hash tmdb mt ei now saveOk).1.entries
          hash =
        some { torrent_id := tid, info_hash := old.info_hash,
               tmdb_id := if tmdb.isSome then tmdb else old.tmdb_id,
               media_type := if mt.isSome then mt else old.media_type,
               created_at := old.created_at, updated_at := now,
               episode_info := if ei.isSome then ei else old.episode_info,
               imdb_code := old.imdb_code }) ∧
    (lookupEntry db.entries hash = none →
      lookupEntry (upsert_torrent db tid hash tmdb mt ei now saveOk).1.entries
          hash =
        some { torrent_id := tid, info_hash := hash, tmdb_id := tmdb,
               media_type := mt, created_at := now, updated_at := now,
               episode_info := ei, imdb_code := none }) := by
  constructor
  · intro old hfound
    rw [upsert_torrent_entries]
    unfold upsertEntries
    rw [hfound]
    dsimp only
    rw [lookupEntry_map_update db.entries hash
      (fun old => mergeEntry old tid tmdb mt ei now), hfound]
    rfl
  · intro hnone
    rw [upsert_torrent_entries]
    unfold upsertEntries
    rw [hnone]
    dsimp only
    rw [lookupEntry_cons, if_pos rfl]

/-- Witness for C5: the scenario of the specification, an upsert with
metadata followed by an upsert carrying only a new numeric id, leaves the
metadata in place and the id refreshed. -/
theorem upsert_merge_semantics_witness :
    lookupEntry (upsert_torrent
        (upsert_torrent ⟨[], [], 0⟩ 1 "abc" (some 42) (some "movie") none
          100 true).1
        2 "abc" none none none 200 true).1.entries "abc" =
      some ⟨2, "abc", some 42, some "movie", 100, 200, none, none⟩ := by
  have h0 : lookupEntry (⟨[], [], 0⟩ : TorrentDb).entries "abc" = none := rfl
  have h1 := (upsert_merge_semantics ⟨[], [], 0⟩ 1 "abc" (some 42)
    (some "movie") none 100 true).2 h0
  have h2 := (upsert_merge_semantics
    (upsert_torrent ⟨[], [], 0⟩ 1 "abc" (some 42) (some "movie") none
      100 true).1
    2 "abc" none none none 200 true).1 _ h1
  rw [h2]
  rfl

/-- The lookup after a filter by hash membership: a retained hash looks up
as before, a dropped hash looks up to nothing. -/
theorem lookupEntry_filter (l : List (String × TorrentEntry))
    (active : List String) (h2 : String) :
    lookupEntry (l.filter fun p => active.contains p.1) h2 =
      if active.contains h2 = true then lookupEntry l h2 else none := by
  induction l with
  | nil =>
    cases active.contains h2
    · rfl
    · rfl
  | cons p rest ih =>
    rw [List.filter_cons]
    by_cases hp : active.contains p.1 = true
    · rw [if_pos hp, lookupEntry_cons]
      by_cases hph : p.1 = h2
      · have hc : active.contains h2 = true := by
          rw [← hph]
          exact hp
        rw [if_pos hph, if_pos hc, lookupEntry_cons, if_pos hph]
      · rw [if_neg hph, ih]
        by_cases hc : active.contains h2 = true
        · rw [if_pos hc, if_pos hc, lookupEntry_cons, if_neg hph]
        · rw [if_neg hc, if_neg hc]
    · rw [if_neg hp, ih]
      by_cases hc : active.contains h2 = true
      · have hph : ¬ p.1 = h2 := by
          intro hcontra
          rw [hcontra] at hp
          exact hp hc
        rw [if_pos hc, if_pos hc, lookupEntry_cons, if_neg hph]
      · rw [if_neg hc, if_neg hc]

/-- C6: sync removes exactly the entries whose hash is absent from the
active list, leaves every present entry unchanged, and attempts a
persistence write exactly when at least one entry was removed. -/
theorem sync_removes_inactive (db : TorrentDb) (active : List String)
    (saveOk : Bool) :
    (∀ h2 : String,
      lookupEntry (sync_with_torrent_list db active saveOk).1.entries h2 =
        if active.contains h2 = true then lookupEntry db.entries h2
        else none) ∧
    ((sync_with_torrent_list db active saveOk).1.saves = db.saves + 1 ↔
      ∃ p ∈ db.entries, ¬ active.contains p.1 = true) ∧
    ((sync_with_torrent_list db active saveOk).1.saves = db.saves ↔
      ∀ p ∈ db.entries, active.contains p.1 = true) := by
  unfold sync_with_torrent_list
  dsimp only
  by_cases hrem : 0 < db.entries.length -
      (db.entries.filter fun p => active.contains p.1).length
  · rw [if_pos hrem]
    have hlt : (db.entries.filter fun p => active.contains p.1).length <
        db.entries.length := by
      have hle := List.length_filter_le (fun p => active.contains p.1) db.entries
      omega
    have hex : ∃ p ∈ db.entries, ¬ active.contains p.1 = true :=
      List.length_filter_lt_length_iff_exists.mp hlt
    refine ⟨?_, ?_, ?_⟩
    · intro h2
      rw [save_to_file_entries]
      exact lookupEntry_filter db.entries active h2
    · rw [save_to_file_saves]
      exact ⟨fun _ => hex, fun _ => rfl⟩
    · rw [save_to_file_saves]
      constructor
      · intro hcontra
        dsimp only at hcontra
        omega
      · intro hall
        exfalso
        have heq : db.entries.filter (fun p => active.contains p.1) =
            db.entries := List.filter_eq_self.mpr hall
        rw [heq] at hlt
        omega
  · rw [if_neg hrem]
    have hle := List.length_filter_le (fun p => active.contains p.1) db.entries
    have hnoex : ¬ ∃ p ∈ db.entries, ¬ active.contains p.1 = true := by
      intro hex
      have hlt := List.length_filter_lt_length_iff_exists.mpr hex
      omega
    refine ⟨?_, ?_, ?_⟩
    · intro h2
      exact lookupEntry_filter db.entries active h2
    · dsimp only
      constructor
      · intro hcontra
        omega
      · intro hex
        exact absurd hex hnoex
    · dsimp only
      constructor
      · intro hs p hp
        by_cases hc : active.contains p.1 = true
        · exact hc
        · exact absurd ⟨p, hp, hc⟩ hnoex
      · intro hall
        rfl

/-- Witness for C6 on a two entry database synced against one active hash:
the active entry is kept unchanged, the inactive one is removed, and one
persistence write happens. -/
theorem sync_removes_inactive_witness :
    lookupEntry (sync_with_torrent_list dbTwo ["a"] true).1.entries "a" =
      some entryA ∧
    lookupEntry (sync_with_torrent_list dbTwo ["a"] true).1.entries "b" =
      none ∧
    (sync_with_torrent_list dbTwo ["a"] true).1.saves = 1 := by
  obtain ⟨hlook, hsave1, hsave0⟩ := sync_removes_inactive dbTwo ["a"] true
  refine ⟨?_, ?_, ?_⟩
  · rw [hlook "a"]
    decide
  · rw [hlook "b"]
    decide
  · have hs := hsave1.mpr ⟨("b", entryB), by decide, by decide⟩
    rw [hs]
    rfl

/-- C10: upsert is not atomic with respect to persistence failure: when the
durable write fails the call returns the error while the in-memory index
already holds the inserted or merged entry, and the durable state is left
as it was, so memory and disk can diverge. -/
theorem upsert_not_atomic (db : TorrentDb) (tid : Int) (hash : String)
    (tmdb : Option Nat) (mt : Option String) (ei : Option (Int × Int))
    (now : Int) :
    (upsert_torrent db tid hash tmdb mt ei now false).2 =
      Except.error "Failed to serialize database" ∧
    (upsert_torrent db tid hash tmdb mt ei now false).1.entries =
      upsertEntries db.entries tid hash tmdb mt ei now ∧
    (lookupEntry
        (upsert_torrent db tid hash tmdb mt ei now false).1.entries
        hash).isSome = true ∧
    (upsert_torrent db tid hash tmdb mt ei now false).1.disk = db.disk := by
  refine ⟨rfl, rfl, ?_, rfl⟩
  rw [upsert_torrent_entries]
  unfold upsertEntries
  rcases hfound : lookupEntry db.entries hash with _ | old
  · dsimp only
    rw [lookupEntry_cons, if_pos rfl]
    rfl
  · dsimp only
    rw [lookupEntry_map_update db.entries hash
      (fun o => mergeEntry o tid tmdb mt ei now), hfound]
    rfl

/-- C8 counterexample: with the listener already running from a first start
call on port 8765, a second start call passing port 9000 creates no second
listener but returns a URL built from its own port argument, which differs
from the first call's base URL. -/
theorem init_file_server_second_port_counterexample :
    (init_file_server (init_file_server ⟨none, 0⟩ 8765).1 9000).2 ≠
      (init_file_server ⟨none, 0⟩ 8765).2 := by
  decide

/-- C8 amended: a second start call while the listener runs never spawns a
second listener and leaves the stored handle untouched, and it returns a
URL built from the port argument of that second call; this equals the first
base URL exactly when the same port is passed again. -/
theorem init_file_server_idempotent_amended (st : ServerHandle) (port : Nat)
    (h : st.handle.isSome = true) :
    (init_file_server st port).1 = st ∧
    (init_file_server st port).2 = "http://127.0.0.1:" ++ toString port := by
  unfold init_file_server
  rw [if_pos h]
  exact ⟨rfl, rfl⟩

/-- Witness for the amended C8: repeating the start call with the same port
returns the same base URL and the same state. -/
theorem init_file_server_idempotent_amended_witness :
    (init_file_server (init_file_server ⟨none, 0⟩ 8765).1 8765).1 =
      (init_file_server ⟨none, 0⟩ 8765).1 ∧
    (init_file_server (init_file_server ⟨none, 0⟩ 8765).1 8765).2 =
      (init_file_server ⟨none, 0⟩ 8765).2 := by
  have h := init_file_server_idempotent_amended
    (init_file_server ⟨none, 0⟩ 8765).1 8765 (by decide)
  refine ⟨h.1, ?_⟩
  rw [h.2]
  rfl
